import Mathlib

/-!
Verification of the streamed-response post-processing pipeline of the
ZewailAI repository (`src/utils/citationProcessor.ts` and the stream-merge
logic of the search orchestration component).

JavaScript strings are modelled as `List Char` (the inputs of interest are
plain text; UTF-16 subtleties do not arise).  Each JS library operation used
by the source (`trim`, `split`, `substring`, first-occurrence `replace`,
`Map.set`, `JSON.parse`, the two anchored pipe-stripping regexes and the
fenced-block regex) is given an explicit executable model below, and the
source functions are translated on top of those models.
-/

/-- JS strings are modelled as lists of characters. -/
abbrev Str := List Char

/-- Conversion from Lean string literals to the model. -/
def str (s : String) : Str := s.data

/-- Membership of a character, i.e. JS `String.prototype.includes` for a
single-character needle. -/
def jsContains (l : Str) (c : Char) : Bool := l.any (· == c)

/-- The JS whitespace class used by `String.prototype.trim` and by the regex
class `\s`: tab..carriage-return, space, NBSP and the Unicode space
separators, line/paragraph separators and the BOM. -/
def isWs (c : Char) : Bool :=
  let n := c.toNat
  (9 ≤ n && n ≤ 13) || n == 32 || n == 0xA0 || n == 0x1680 ||
    (0x2000 ≤ n && n ≤ 0x200A) || n == 0x2028 || n == 0x2029 ||
    n == 0x202F || n == 0x205F || n == 0x3000 || n == 0xFEFF

/-- JS `String.prototype.trim`. -/
def jsTrim (l : Str) : Str :=
  ((l.dropWhile isWs).reverse.dropWhile isWs).reverse

/-- JS `String.prototype.split` with a single-character separator.  On the
empty string it returns `[""]`, like JS. -/
def jsSplitChar (sep : Char) : List Char → List Str
  | [] => [[]]
  | c :: rest =>
    let r := jsSplitChar sep rest
    if c = sep then [] :: r
    else
      match r with
      | [] => [[c]]
      | h :: t => (c :: h) :: t

/-- Clamp an index into `[0, len]`, as JS `substring` does. -/
def jsClamp (len : Nat) (x : Int) : Nat := (max x 0).toNat.min len

/-- JS `String.prototype.substring(a, b)`: indices are clamped into range and
swapped when given in descending order. -/
def jsSubstring (s : Str) (a b : Int) : Str :=
  (s.take (max (jsClamp s.length a) (jsClamp s.length b))).drop
    (min (jsClamp s.length a) (jsClamp s.length b))

/-- JS `String.prototype.substring(a)` (to the end of the string). -/
def jsSubstringFrom (s : Str) (a : Int) : Str :=
  s.drop (jsClamp s.length a)

/-- The effect of `.replace(/^\||\|$/g, '')` (used by `parseRow` and
`isSeparatorLine`): remove one leading pipe if present, then one trailing
pipe if present. -/
def stripPipes (l : Str) : Str :=
  let l1 := match l with
    | '|' :: t => t
    | _ => l
  if l1.getLast? = some '|' then l1.dropLast else l1

/-- The effect of `.replace(/^\s*\||\|\s*$/g, '')` (used for the separator
column count): remove a leading whitespace-run-plus-pipe if present. -/
def stripLeadWsPipe (l : Str) : Str :=
  match l.dropWhile isWs with
  | '|' :: t => t
  | _ => l

/-- Second half of `.replace(/^\s*\||\|\s*$/g, '')`: remove a trailing
pipe-plus-whitespace-run if present. -/
def stripTrailPipeWs (l : Str) : Str :=
  match l.reverse.dropWhile isWs with
  | '|' :: t => t.reverse
  | _ => l

/-- The regex test `/^\s*:?-+:?\s*$/` from `isSeparatorLine`, as a direct
deterministic scan (the character classes of consecutive pieces are disjoint,
so the greedy regex has no observable backtracking). -/
def segTest (s : Str) : Bool :=
  let s1 := s.dropWhile isWs
  let s2 := match s1 with
    | ':' :: t => t
    | _ => s1
  let dashes := s2.takeWhile (· = '-')
  let s3 := s2.dropWhile (· = '-')
  let s4 := match s3 with
    | ':' :: t => t
    | _ => s3
  decide (0 < dashes.length) && s4.all isWs

/-- `parseRow` from `citationProcessor.ts`: trim, strip one leading/trailing
pipe, trim again, split on `|`, trim each cell. -/
def parseRow (rowString : Str) : List Str :=
  let cleanedRow := jsTrim (stripPipes (jsTrim rowString))
  (jsSplitChar '|' cleanedRow).map jsTrim

/-- `isSeparatorLine` from `citationProcessor.ts`. -/
def isSeparatorLine (line : Str) : Bool :=
  let trimmedLine := jsTrim line
  if jsContains trimmedLine '-' && jsContains trimmedLine '|' then
    let segments := jsSplitChar '|' (stripPipes trimmedLine)
    decide (0 < segments.length) && segments.all segTest
  else false

/-- The separator-column list of line 134 of `citationProcessor.ts`:
`potentialSeparatorLine.replace(/^\s*\||\|\s*$/g, '').split('|')`. -/
def sepCols (line : Str) : List Str :=
  jsSplitChar '|' (stripTrailPipeWs (stripLeadWsPipe line))

/-- The inner row-collection loop (lines 141-152 of `citationProcessor.ts`):
starting just after the separator line, collect rows while each line contains
a pipe and splits into exactly `hlen` cells. -/
def collectRows (hlen : Nat) : List Str → List (List Str)
  | [] => []
  | line :: rest =>
    if jsContains line '|' then
      let row := parseRow line
      if row.length = hlen then row :: collectRows hlen rest else []
    else []

/-- The outer scanning loop (lines 128-156): find the first adjacent
header/separator pair whose cell counts agree, and collect its data rows.
Returns the header line's index, the parsed headers and the collected rows. -/
def scanTable : Nat → List Str → Option (Nat × List Str × List (List Str))
  | _, [] => none
  | _, [_] => none
  | i, h :: sep :: rest =>
    if isSeparatorLine sep then
      let hs := parseRow h
      if 0 < hs.length ∧ hs.length = (sepCols sep).length then
        some (i, hs, collectRows hs.length rest)
      else scanTable (i + 1) (sep :: rest)
    else scanTable (i + 1) (sep :: rest)

/-- `ComparisonTableData` from `types.ts` as produced by the grid scanner. -/
structure ComparisonTableData where
  headers : List Str
  rows : List (List Str)
deriving DecidableEq

/-- Result type of `_internalParseMarkdownForTable`. -/
structure InternalResult where
  remainingText : Str
  table : Option ComparisonTableData
deriving DecidableEq

/-- `_internalParseMarkdownForTable` from `citationProcessor.ts` (lines
121-169): split into lines, scan for a table, require at least one data row,
remove the consumed lines and rejoin the rest. -/
def _internalParseMarkdownForTable (markdown : Str) : InternalResult :=
  let lines := jsSplitChar '\n' markdown
  match scanTable 0 lines with
  | none => ⟨markdown, none⟩
  | some (i, hs, rows) =>
    if rows.isEmpty then ⟨markdown, none⟩
    else
      let tableEndIndex := i + 1 + rows.length
      let remainingLines :=
        (lines.enum.filter (fun p => p.1 < i ∨ tableEndIndex < p.1)).map (·.2)
      ⟨jsTrim (List.intercalate (str "\n") remainingLines), some ⟨hs, rows⟩⟩

/-- JSON value as produced by `JSON.parse`.  Numbers are modelled by their
integer part (no claim in this development depends on fractional values);
object fields are kept in first-insertion order with duplicate keys
overwriting the stored value, as in JS. -/
inductive Json where
  | null : Json
  | bool : Bool → Json
  | num : Int → Json
  | jstr : Str → Json
  | arr : List Json → Json
  | obj : List (Str × Json) → Json

/-- JS property read `j[k]`: `none` models `undefined`. -/
def jsGet (j : Json) (k : Str) : Option Json :=
  match j with
  | Json.obj fields => (fields.find? (fun p => p.1 == k)).map (·.2)
  | _ => none

/-- JS truthiness of a JSON value. -/
def truthy : Json → Bool
  | Json.null => false
  | Json.bool b => b
  | Json.num n => !(n == 0)
  | Json.jstr s => !s.isEmpty
  | Json.arr _ => true
  | Json.obj _ => true

/-- JS truthiness of a possibly-`undefined` value. -/
def truthyOpt : Option Json → Bool
  | none => false
  | some j => truthy j

/-- Insert a key into a JS object under construction: an existing key keeps
its position but its value is overwritten. -/
def objInsert (fields : List (Str × Json)) (k : Str) (v : Json) :
    List (Str × Json) :=
  if fields.any (·.1 == k) then
    fields.map (fun p => if p.1 == k then (k, v) else p)
  else fields ++ [(k, v)]

/-- JSON whitespace (the only characters `JSON.parse` skips between tokens). -/
def isJws (c : Char) : Bool := c == ' ' || c == '\t' || c == '\n' || c == '\r'

/-- Skip JSON whitespace. -/
def skipJws (l : Str) : Str := l.dropWhile isJws

/-- Hexadecimal digit value. -/
def hexVal (c : Char) : Option Nat :=
  if c.isDigit then some (c.toNat - 48)
  else if 'a' ≤ c ∧ c ≤ 'f' then some (c.toNat - 87)
  else if 'A' ≤ c ∧ c ≤ 'F' then some (c.toNat - 55)
  else none

/-- JSON string body (after the opening quote).  Returns the decoded
contents and the remainder after the closing quote. -/
def parseJStr : Str → Option (Str × Str)
  | [] => none
  | '"' :: r => some ([], r)
  | '\\' :: e :: r =>
    let esc : Option Char :=
      if e = '"' then some '"'
      else if e = '\\' then some '\\'
      else if e = '/' then some '/'
      else if e = 'b' then some '\x08'
      else if e = 'f' then some '\x0c'
      else if e = 'n' then some '\n'
      else if e = 'r' then some '\r'
      else if e = 't' then some '\t'
      else none
    match esc with
    | some c => (parseJStr r).map (fun p => (c :: p.1, p.2))
    | none =>
      if e = 'u' then
        match r with
        | a :: b :: c :: d :: r2 =>
          match hexVal a, hexVal b, hexVal c, hexVal d with
          | some x1, some x2, some x3, some x4 =>
            (parseJStr r2).map
              (fun p => (Char.ofNat (((x1 * 16 + x2) * 16 + x3) * 16 + x4) :: p.1, p.2))
          | _, _, _, _ => none
        | _ => none
      else none
  | c :: r =>
    if c.toNat < 32 then none
    else (parseJStr r).map (fun p => (c :: p.1, p.2))

/-- Digit run to a natural number. -/
def digitsToNat (l : Str) : Nat := l.foldl (fun a c => a * 10 + (c.toNat - 48)) 0

/-- Optional JSON exponent part; the numeric value of the exponent is
irrelevant for this development and is dropped. -/
def parseJExp (l : Str) : Option Str :=
  match l with
  | c :: r =>
    if c = 'e' ∨ c = 'E' then
      let r2 := match r with
        | '+' :: t => t
        | '-' :: t => t
        | _ => r
      let ds := r2.takeWhile Char.isDigit
      if ds.isEmpty then none else some (r2.dropWhile Char.isDigit)
    else some l
  | [] => some []

/-- JSON number literal, kept as its integer part.  Enforces the JSON
grammar (no leading zeros, digits required after `.` and the exponent). -/
def parseJNum (l : Str) : Option (Json × Str) :=
  let (neg, l1) := match l with
    | '-' :: t => (true, t)
    | _ => (false, l)
  let digs := l1.takeWhile Char.isDigit
  let rest := l1.dropWhile Char.isDigit
  if digs.isEmpty then none
  else if 1 < digs.length ∧ digs.head? = some '0' then none
  else
    let n : Int := if neg then -(digitsToNat digs : Int) else digitsToNat digs
    match rest with
    | '.' :: r2 =>
      let fd := r2.takeWhile Char.isDigit
      if fd.isEmpty then none
      else (parseJExp (r2.dropWhile Char.isDigit)).map (fun r3 => (Json.num n, r3))
    | _ => (parseJExp rest).map (fun r3 => (Json.num n, r3))

mutual

/-- JSON value parser with fuel. -/
def parseJVal : Nat → Str → Option (Json × Str)
  | 0, _ => none
  | f + 1, l0 =>
    match skipJws l0 with
    | '\x7b' :: t =>
      match skipJws t with
      | '\x7d' :: r => some (Json.obj [], r)
      | _ => (parseJObjRest f t []).map (fun p => (Json.obj p.1, p.2))
    | '[' :: t =>
      match skipJws t with
      | ']' :: r => some (Json.arr [], r)
      | _ => (parseJArrRest f t []).map (fun p => (Json.arr p.1, p.2))
    | '"' :: t => (parseJStr t).map (fun p => (Json.jstr p.1, p.2))
    | 't' :: 'r' :: 'u' :: 'e' :: r => some (Json.bool true, r)
    | 'f' :: 'a' :: 'l' :: 's' :: 'e' :: r => some (Json.bool false, r)
    | 'n' :: 'u' :: 'l' :: 'l' :: r => some (Json.null, r)
    | l => parseJNum l

/-- Comma-separated array elements up to the closing bracket. -/
def parseJArrRest : Nat → Str → List Json → Option (List Json × Str)
  | 0, _, _ => none
  | f + 1, l, acc =>
    match parseJVal f l with
    | none => none
    | some (v, r) =>
      match skipJws r with
      | ',' :: r2 => parseJArrRest f r2 (acc ++ [v])
      | ']' :: r2 => some (acc ++ [v], r2)
      | _ => none

/-- Comma-separated object members up to the closing brace. -/
def parseJObjRest : Nat → Str → List (Str × Json) →
    Option (List (Str × Json) × Str)
  | 0, _, _ => none
  | f + 1, l, acc =>
    match skipJws l with
    | '"' :: t =>
      match parseJStr t with
      | none => none
      | some (k, r) =>
        match skipJws r with
        | ':' :: r2 =>
          match parseJVal f r2 with
          | none => none
          | some (v, r3) =>
            let acc2 := objInsert acc k v
            match skipJws r3 with
            | ',' :: r4 => parseJObjRest f r4 acc2
            | '\x7d' :: r4 => some (acc2, r4)
            | _ => none
        | _ => none
    | _ => none

end

/-- `JSON.parse`: parse one value and require only whitespace afterwards.
`none` models a thrown `SyntaxError`. -/
def jsonParse (s : Str) : Option Json :=
  match parseJVal (s.length + 1) s with
  | some (v, rest) => if (skipJws rest).isEmpty then some v else none
  | none => none

/-- First index at which `pat` occurs as a contiguous sublist. -/
def findIdx (pat : Str) : Str → Option Nat
  | [] => if pat.isEmpty then some 0 else none
  | c :: t =>
    if pat.isPrefixOf (c :: t) then some 0 else (findIdx pat t).map (· + 1)

/-- One attempt of the fenced-block regex
`/```(?:json)?\s*([\s\S]*?)\s*```/` at the current position: three
backticks, an optional `json` tag, then everything up to the next three
backticks; the capture is the enclosed text with the `\s*` runs on both
sides stripped (the lazy/greedy interplay of the regex amounts to exactly
this, because the closing fence chosen is the first occurrence of three
backticks after the opener).  Returns (whole match, capture, remainder). -/
def matchFence (l : Str) : Option (Str × Str × Str) :=
  if l.take 3 = ['`', '`', '`'] then
    let r := l.drop 3
    let jsonTag : Str := if r.take 4 = ['j', 's', 'o', 'n'] then ['j', 's', 'o', 'n'] else []
    let r2 := r.drop jsonTag.length
    match findIdx ['`', '`', '`'] r2 with
    | none => none
    | some t0 =>
      some (['`', '`', '`'] ++ jsonTag ++ r2.take t0 ++ ['`', '`', '`'],
        jsTrim (r2.take t0), r2.drop (t0 + 3))
  else none

/-- Leftmost match of the fenced-block regex: (text before the match, whole
match, capture group 1, text after the match); `none` models a failed
`String.prototype.match`. -/
def findBlock : Str → Option (Str × Str × Str × Str)
  | [] => none
  | c :: t =>
    match matchFence (c :: t) with
    | some (whole, cap, rest) => some ([], whole, cap, rest)
    | none => (findBlock t).map (fun q => (c :: q.1, q.2.1, q.2.2.1, q.2.2.2))

/-- JS `String.prototype.replace` with a string pattern: replace the first
occurrence only. -/
def jsReplaceFirst (pat repl : Str) : Str → Str
  | [] => if pat.isEmpty then repl else []
  | c :: t =>
    if pat.isPrefixOf (c :: t) then repl ++ (c :: t).drop pat.length
    else c :: jsReplaceFirst pat repl t

/-- The runtime shape of a table taken from a fenced JSON block: the code
only validates that `headers` and `rows` are arrays (their elements are
unchecked), so both are lists of arbitrary JSON values. -/
structure JsTable where
  headers : List Json
  rows : List Json

/-- The structural validation of lines 200-205 of `citationProcessor.ts`:
`typeof table === 'object' && table !== null && Array.isArray(headers) &&
Array.isArray(rows)`.  A JSON array or primitive has no `headers`/`rows`
properties, so only an object can pass. -/
def validTable (tv : Json) : Option JsTable :=
  match tv with
  | Json.obj _ =>
    match jsGet tv (str "headers"), jsGet tv (str "rows") with
    | some (Json.arr hs), some (Json.arr rs) => some ⟨hs, rs⟩
    | _, _ => none
  | _ => none

/-- The guarded extraction of lines 199-205: `parsedJson && parsedJson.table`
must be truthy, then the structural validation runs on `parsedJson.table`. -/
def fencedTableOf (parsed : Json) : Option JsTable :=
  if truthy parsed && truthyOpt (jsGet parsed (str "table")) then
    match jsGet parsed (str "table") with
    | some tv => validTable tv
    | none => none
  else none

/-- Result type of `extractAndParseMarkdownTable`; the `table` lives in the
JSON universe because the fenced path returns the cast parse result. -/
structure ExtractResult where
  remainingText : Str
  table : Option JsTable

/-- A grid-scanner table re-expressed as the JSON-universe value it is at
runtime (each cell is a JS string). -/
def tableToJsonTable (t : ComparisonTableData) : JsTable :=
  ⟨t.headers.map Json.jstr, t.rows.map (fun r => Json.arr (r.map Json.jstr))⟩

/-- Lift the grid scanner's result to the common result type. -/
def liftInternal (r : InternalResult) : ExtractResult :=
  ⟨r.remainingText, r.table.map tableToJsonTable⟩

/-- `extractAndParseMarkdownTable` from `citationProcessor.ts` (lines
184-239).  Empty input short-circuits; otherwise the trimmed text is
searched for a fenced block (whose capture must be truthy, i.e. nonempty);
a parsed block with a validated `table` wins; a block whose payload throws
in `JSON.parse` triggers a grid scan of the text outside the block; every
other path falls through to a grid scan of the entire original text. -/
def extractAndParseMarkdownTable (responseText : Str) : ExtractResult :=
  if responseText.isEmpty then ⟨[], none⟩
  else
    let textToParse := jsTrim responseText
    match findBlock textToParse with
    | none => liftInternal (_internalParseMarkdownForTable responseText)
    | some (_, whole, cap, _) =>
      if cap.isEmpty then liftInternal (_internalParseMarkdownForTable responseText)
      else
        match jsonParse cap with
        | none =>
          let textOutsideBlock := jsTrim (jsReplaceFirst whole [] textToParse)
          let result := _internalParseMarkdownForTable textOutsideBlock
          match result.table with
          | some _ => liftInternal result
          | none => liftInternal (_internalParseMarkdownForTable responseText)
        | some parsed =>
          match fencedTableOf parsed with
          | some table =>
            let textOutsideBlock := jsTrim (jsReplaceFirst whole [] textToParse)
            let textInsideBlock := match jsGet parsed (str "text") with
              | some (Json.jstr t) => jsTrim t
              | _ => []
            let combined :=
              List.intercalate (str "\n\n")
                (([textOutsideBlock, textInsideBlock]).filter (fun t => !t.isEmpty))
            ⟨combined, some table⟩
          | none => liftInternal (_internalParseMarkdownForTable responseText)

/-- `Source` from `types.ts`. -/
structure Source where
  title : Str
  uri : Str
deriving DecidableEq

/-- `Citation` from `types.ts`; optional fields are `Option` (`none` models
a missing/`undefined` field). -/
structure Citation where
  startIndex : Option Int
  endIndex : Option Int
  uri : Str
  license : Option Str
deriving DecidableEq

/-- A citation that survived filtering in `processCitedContent`: the spread
`{...citation, sourceIndex, sourceTitle}` with a known-numeric start. -/
structure PCitation where
  startIndex : Int
  endIndex : Option Int
  uri : Str
  license : Option Str
  sourceIndex : Nat
  sourceTitle : Str
deriving DecidableEq

/-- The `uriToSourceData` map of lines 26-31: a JS `Map` built from
`sources.map((source, index) => [source.uri, {index, title}])`, so for a
duplicated `uri` the last entry wins.  Modelled as a direct lookup of the
last matching source together with its index. -/
def lookupLast (uri : Str) : List Source → Nat → Option (Nat × Str)
  | [], _ => none
  | s :: rest, i =>
    match lookupLast uri rest (i + 1) with
    | some r => some r
    | none => if s.uri == uri then some (i, s.title) else none

/-- Lookup in the `uriToSourceData` map. -/
def uriToSourceData (sources : List Source) (uri : Str) : Option (Nat × Str) :=
  lookupLast uri sources 0

/-- One step of the filter/map pipeline of lines 36-47: keep a citation iff
its `startIndex` is a number and its `uri` is a known source. -/
def toPCitation (sources : List Source) (c : Citation) : Option PCitation :=
  match c.startIndex with
  | none => none
  | some si =>
    match uriToSourceData sources c.uri with
    | none => none
    | some (idx, title) => some ⟨si, c.endIndex, c.uri, c.license, idx, title⟩

/-- The full filter/map/sort pipeline of lines 36-48.  JS `Array.sort` is
stable and the comparator `a.startIndex - b.startIndex` orders by
`startIndex`, so it is modelled by a stable sort for `≤` on `startIndex`. -/
def processedCitations (citations : List Citation) (sources : List Source) :
    List PCitation :=
  List.insertionSort (fun a b => a.startIndex ≤ b.startIndex)
    (citations.filterMap (toPCitation sources))

/-- The insertion point of line 63: `citation.endIndex || citation.startIndex`
(`undefined` and `0` are falsy, every other number is truthy). -/
def insertionPoint (c : PCitation) : Int :=
  match c.endIndex with
  | some e => if e = 0 then c.startIndex else e
  | none => c.startIndex

/-- The markdown citation marker of line 76:
`[${sourceIndex+1}](#citation-${sourceIndex})`. -/
def markerStr (i : Nat) : Str :=
  str ("[" ++ toString (i + 1) ++ "](#citation-" ++ toString i ++ ")")

/-- The `resultParts` building loop of lines 57-84, plus the trailing
`content.substring(lastIndex)` push: a citation whose insertion point is
behind the cursor is skipped, otherwise the pending text segment and the
marker are pushed and the cursor advances. -/
def citeLoop (content : Str) : List PCitation → Int → List Str
  | [], lastIndex => [jsSubstringFrom content lastIndex]
  | c :: rest, lastIndex =>
    let p := insertionPoint c
    if p < lastIndex then citeLoop content rest lastIndex
    else jsSubstring content lastIndex p :: markerStr c.sourceIndex ::
      citeLoop content rest p

/-- `processCitedContent` from `citationProcessor.ts` (lines 14-87).
`none` for `citations`/`sources` models `null`/`undefined`. -/
def processCitedContent (content : Str) (citations : Option (List Citation))
    (sources : Option (List Source)) : Str :=
  match citations, sources with
  | some cl, some sl =>
    if cl.isEmpty || sl.isEmpty then content
    else
      let processed := processedCitations cl sl
      if processed.isEmpty then content
      else (citeLoop content processed 0).flatten
  | _, _ => content

/-- The list of surviving citations for arbitrary (possibly null)
arguments; empty exactly when `processCitedContent` emits no marker. -/
def survivors (citations : Option (List Citation))
    (sources : Option (List Source)) : List PCitation :=
  match citations, sources with
  | some cl, some sl => processedCitations cl sl
  | _, _ => []

/-- The `resultParts` array of `processCitedContent` before the final
`join('')` (with the no-op early returns represented as the single part
`[content]`). -/
def citationParts (content : Str) (citations : Option (List Citation))
    (sources : Option (List Source)) : List Str :=
  match citations, sources with
  | some cl, some sl =>
    if cl.isEmpty || sl.isEmpty then [content]
    else
      let processed := processedCitations cl sl
      if processed.isEmpty then [content]
      else citeLoop content processed 0
  | _, _ => [content]

/-- The text parts of a `resultParts` list: the loop pushes parts in strict
text/marker alternation and ends with one trailing text part, so the text
parts are the even-indexed ones. -/
def textOnly : List Str → Str
  | [] => []
  | [t] => t
  | t :: _ :: rest => t ++ textOnly rest

/-- The marker parts of a `resultParts` list (the odd-indexed parts). -/
def markerOnly : List Str → List Str
  | [] => []
  | [_] => []
  | _ :: m :: rest => m :: markerOnly rest

/-- JS `Map.prototype.set` on an association list in insertion order: an
existing key keeps its position and gets the new value, a new key is
appended. -/
def jsMapSet (m : List (Str × Source)) (k : Str) (v : Source) :
    List (Str × Source) :=
  if m.any (·.1 == k) then m.map (fun p => if p.1 == k then (k, v) else p)
  else m ++ [(k, v)]

/-- The source-merge step of the stream loop in the search orchestration
component: `sources.forEach(s => sourcesMap.set(s.uri, s))`. -/
def mergeSources (m : List (Str × Source)) (arriving : List Source) :
    List (Str × Source) :=
  arriving.foldl (fun acc s => jsMapSet acc s.uri s) m

/-- `Array.from(sourcesMap.values())`: the stored sources in key insertion
order. -/
def sourceValues (m : List (Str × Source)) : List Source := m.map (·.2)

/-- The value stored in the map under a key (keys are unique by
construction). -/
def mapLookup (m : List (Str × Source)) (k : Str) : Option Source :=
  (m.find? (fun p => p.1 == k)).map (·.2)

lemma jsClamp_mono {a b : Int} (len : Nat) (h : a ≤ b) :
    jsClamp len a ≤ jsClamp len b := by
  unfold jsClamp
  exact min_le_min (Int.toNat_le_toNat (max_le_max h le_rfl)) le_rfl

lemma jsClamp_le_len (len : Nat) (a : Int) : jsClamp len a ≤ len :=
  Nat.min_le_right _ _

lemma jsClamp_zero (len : Nat) : jsClamp len 0 = 0 := by
  simp [jsClamp]

lemma jsSubstringFrom_zero (s : Str) : jsSubstringFrom s 0 = s := by
  simp [jsSubstringFrom, jsClamp_zero]

lemma jsSubstring_self (s : Str) (a : Int) : jsSubstring s a a = [] := by
  unfold jsSubstring
  simp only [max_self, min_self]
  exact List.drop_eq_nil_of_le (by simp [List.length_take])

lemma drop_take_append_drop {α : Type} (s : List α) (a b : Nat)
    (hab : a ≤ b) (hb : b ≤ s.length) :
    (s.take b).drop a ++ s.drop b = s.drop a := by
  have hlen : (s.take b).length = b := by
    simp [List.length_take, Nat.min_eq_left hb]
  conv_rhs => rw [← List.take_append_drop b s]
  rw [List.drop_append_eq_append_drop, hlen,
    Nat.sub_eq_zero_of_le hab, List.drop_zero]

lemma jsSubstring_append_from (s : Str) {a b : Int} (h : a ≤ b) :
    jsSubstring s a b ++ jsSubstringFrom s b = jsSubstringFrom s a := by
  unfold jsSubstring jsSubstringFrom
  have hab : jsClamp s.length a ≤ jsClamp s.length b := jsClamp_mono s.length h
  rw [max_eq_right hab, min_eq_left hab]
  exact drop_take_append_drop s _ _ hab (jsClamp_le_len s.length b)

lemma textOnly_citeLoop (content : Str) :
    ∀ (l : List PCitation) (lastIndex : Int), 0 ≤ lastIndex →
      textOnly (citeLoop content l lastIndex) = jsSubstringFrom content lastIndex := by
  intro l
  induction l with
  | nil => intro lastIndex _; simp [citeLoop, textOnly]
  | cons c rest ih =>
    intro lastIndex h
    simp only [citeLoop]
    split
    · exact ih lastIndex h
    · rename_i hp
      rw [textOnly, ih (insertionPoint c) (by omega)]
      exact jsSubstring_append_from content (by omega)

lemma markerOnly_citeLoop (content : Str) :
    ∀ (l : List PCitation) (lastIndex : Int),
      ∃ idxs : List Nat, markerOnly (citeLoop content l lastIndex) = idxs.map markerStr := by
  intro l
  induction l with
  | nil => intro lastIndex; exact ⟨[], rfl⟩
  | cons c rest ih =>
    intro lastIndex
    simp only [citeLoop]
    split
    · exact ih lastIndex
    · obtain ⟨idxs, hidxs⟩ := ih (insertionPoint c)
      exact ⟨c.sourceIndex :: idxs, by rw [markerOnly, hidxs]; rfl⟩

lemma processCitedContent_eq_flatten (content : Str)
    (citations : Option (List Citation)) (sources : Option (List Source)) :
    processCitedContent content citations sources
      = (citationParts content citations sources).flatten := by
  unfold processCitedContent citationParts
  match citations, sources with
  | none, none => simp
  | none, some _ => simp
  | some _, none => simp
  | some cl, some sl =>
    cases h1 : cl.isEmpty || sl.isEmpty with
    | true => simp [h1]
    | false =>
      cases h2 : (processedCitations cl sl).isEmpty with
      | true => simp [h1, h2]
      | false => simp [h1, h2]

/-- Claim C7: in the injector's walk, a citation whose insertion point is
strictly below the cursor is skipped entirely (no marker, cursor unchanged);
a citation whose insertion point equals the cursor is accepted and emits its
marker with an empty text segment; and for two citations processed in order
whose insertion points are out of order (the second strictly below the
first), only the first produces a marker. -/
theorem citeLoop_skip_accept_overlap :
    (∀ (content : Str) (c : PCitation) (rest : List PCitation) (lastIndex : Int),
      insertionPoint c < lastIndex →
      citeLoop content (c :: rest) lastIndex = citeLoop content rest lastIndex)
    ∧ (∀ (content : Str) (c : PCitation) (rest : List PCitation) (lastIndex : Int),
      insertionPoint c = lastIndex →
      (citeLoop content (c :: rest) lastIndex).flatten
        = markerStr c.sourceIndex ++ (citeLoop content rest lastIndex).flatten)
    ∧ (∀ (content : Str) (c1 c2 : PCitation),
      0 ≤ insertionPoint c1 → insertionPoint c2 < insertionPoint c1 →
      (citeLoop content [c1, c2] 0).flatten
        = jsSubstring content 0 (insertionPoint c1) ++ markerStr c1.sourceIndex
            ++ jsSubstringFrom content (insertionPoint c1)) := by
  refine ⟨?_, ?_, ?_⟩
  · intro content c rest lastIndex h
    simp only [citeLoop]
    rw [if_pos h]
  · intro content c rest lastIndex h
    simp only [citeLoop]
    rw [if_neg (by omega), h, jsSubstring_self]
    simp
  · intro content c1 c2 h1 h2
    simp only [citeLoop]
    rw [if_neg (by omega), if_pos h2]
    simp [List.append_assoc]

/-- Witness for C7 at concrete inputs: a citation at insertion point 2 with
the cursor at 5 is dropped without effect; one at the cursor emits its
marker in place; and of the two out-of-order citations with insertion points
8 and 3, only the first yields a marker. -/
theorem citeLoop_skip_accept_overlap_witness :
    citeLoop (str "ABCDEFGHIJ") [⟨2, none, str "a", none, 0, str "A"⟩] 5
        = citeLoop (str "ABCDEFGHIJ") [] 5
    ∧ (citeLoop (str "ABCDEFGHIJ") [⟨5, none, str "a", none, 0, str "A"⟩] 5).flatten
        = markerStr 0 ++ (citeLoop (str "ABCDEFGHIJ") [] 5).flatten
    ∧ (citeLoop (str "ABCDEFGHIJ")
          [⟨3, some 8, str "a", none, 0, str "A"⟩, ⟨1, some 3, str "b", none, 1, str "B"⟩] 0).flatten
        = jsSubstring (str "ABCDEFGHIJ") 0 8 ++ markerStr 0
            ++ jsSubstringFrom (str "ABCDEFGHIJ") 8 :=
  ⟨citeLoop_skip_accept_overlap.1 (str "ABCDEFGHIJ") _ [] 5 (by decide),
   citeLoop_skip_accept_overlap.2.1 (str "ABCDEFGHIJ") _ [] 5 (by decide),
   citeLoop_skip_accept_overlap.2.2 (str "ABCDEFGHIJ") _ _ (by decide) (by decide)⟩

/-- Claim C10: the injector only inserts marker tokens.  Its output is the
concatenation of its `resultParts`; the text parts of that list concatenate
to exactly the input content (no character is deleted, duplicated or
reordered, for arbitrary citations including out-of-range, duplicate or
negative insertion points); and every marker part is a token of the form
`[n](#citation-k)`. -/
theorem processCitedContent_only_inserts (content : Str)
    (citations : Option (List Citation)) (sources : Option (List Source)) :
    processCitedContent content citations sources
        = (citationParts content citations sources).flatten
    ∧ textOnly (citationParts content citations sources) = content
    ∧ ∃ idxs : List Nat,
        markerOnly (citationParts content citations sources) = idxs.map markerStr := by
  refine ⟨processCitedContent_eq_flatten content citations sources, ?_, ?_⟩
  · unfold citationParts
    match citations, sources with
    | none, none => simp [textOnly]
    | none, some _ => simp [textOnly]
    | some _, none => simp [textOnly]
    | some cl, some sl =>
      cases h1 : cl.isEmpty || sl.isEmpty with
      | true => simp [h1, textOnly]
      | false =>
        cases h2 : (processedCitations cl sl).isEmpty with
        | true => simp [h1, h2, textOnly]
        | false =>
          simp only [h1, h2, Bool.false_eq_true, if_false]
          rw [textOnly_citeLoop content _ 0 le_rfl, jsSubstringFrom_zero]
  · unfold citationParts
    match citations, sources with
    | none, none => exact ⟨[], rfl⟩
    | none, some _ => exact ⟨[], rfl⟩
    | some _, none => exact ⟨[], rfl⟩
    | some cl, some sl =>
      cases h1 : cl.isEmpty || sl.isEmpty with
      | true => exact ⟨[], by simp [h1, markerOnly]⟩
      | false =>
        cases h2 : (processedCitations cl sl).isEmpty with
        | true => exact ⟨[], by simp [h1, h2, markerOnly]⟩
        | false =>
          obtain ⟨idxs, hidxs⟩ := markerOnly_citeLoop content (processedCitations cl sl) 0
          exact ⟨idxs, by
            simp only [h1, h2, Bool.false_eq_true, if_false]
            exact hidxs⟩

lemma lookupLast_eq_none {uri : Str} {sl : List Source}
    (h : ∀ s ∈ sl, s.uri ≠ uri) : ∀ i, lookupLast uri sl i = none := by
  induction sl with
  | nil => intro i; rfl
  | cons s rest ih =>
    intro i
    simp only [lookupLast]
    rw [ih (fun x hx => h x (List.mem_cons_of_mem _ hx)) (i + 1)]
    have hne : (s.uri == uri) = false := by
      simp only [beq_eq_false_iff_ne, ne_eq]
      exact h s (List.mem_cons_self _ _)
    simp [hne]

lemma toPCitation_eq_none {sl : List Source} {c : Citation}
    (h : c.startIndex = none ∨ ∀ s ∈ sl, s.uri ≠ c.uri) :
    toPCitation sl c = none := by
  cases h with
  | inl h => simp [toPCitation, h]
  | inr h =>
    cases hsi : c.startIndex with
    | none => simp [toPCitation, hsi]
    | some si =>
      simp [toPCitation, hsi, uriToSourceData, lookupLast_eq_none h 0]

/-- Claim C8: `processCitedContent` is a total function; a citation with a
missing start position, or whose `uri` matches no source, contributes
nothing to the output (removing it from the citation list leaves the output
unchanged); and whenever no citation survives the filtering — including null
or empty `citations`/`sources` — the output is exactly the input content. -/
theorem processCitedContent_filtering_and_noop :
    (∀ (content : Str) (citations : Option (List Citation))
        (sources : Option (List Source)),
      survivors citations sources = [] →
      processCitedContent content citations sources = content)
    ∧ (∀ (content : Str) (sl : List Source) (c : Citation)
        (l1 l2 : List Citation),
      c.startIndex = none ∨ (∀ s ∈ sl, s.uri ≠ c.uri) →
      processCitedContent content (some (l1 ++ c :: l2)) (some sl)
        = processCitedContent content (some (l1 ++ l2)) (some sl)) := by
  constructor
  · intro content citations sources h
    cases citations with
    | none => rfl
    | some cl =>
      cases sources with
      | none => rfl
      | some sl =>
        simp only [survivors] at h
        cases h1 : cl.isEmpty || sl.isEmpty with
        | true => simp [processCitedContent, h1]
        | false => simp [processCitedContent, h1, h]
  · intro content sl c l1 l2 hinv
    have hproc : processedCitations (l1 ++ c :: l2) sl
        = processedCitations (l1 ++ l2) sl := by
      unfold processedCitations
      rw [List.filterMap_append, List.filterMap_append, List.filterMap_cons,
        toPCitation_eq_none hinv]
    have hne : (l1 ++ c :: l2).isEmpty = false := by cases l1 <;> rfl
    cases hsl : sl.isEmpty with
    | true => simp [processCitedContent, hsl]
    | false =>
      cases hll : (l1 ++ l2).isEmpty with
      | true =>
        have hl12 : l1 ++ l2 = [] := by
          cases l1 with
          | nil =>
            cases l2 with
            | nil => rfl
            | cons x xs => simp at hll
          | cons x xs => simp at hll
        have hP : processedCitations (l1 ++ c :: l2) sl = [] := by
          rw [hproc, hl12]
          simp [processedCitations]
        simp [processCitedContent, hne, hsl, hll, hP]
      | false =>
        simp only [processCitedContent, hne, hsl, hll, Bool.or_false,
          Bool.false_eq_true, if_false, hproc]

/-- Witness for C8: a citation with no start position is dropped (the output
equals the output on the citation list without it), and with no surviving
citation the output is the input unchanged. -/
theorem processCitedContent_filtering_and_noop_witness :
    processCitedContent (str "hi") (some [⟨none, none, str "u", none⟩])
        (some [⟨str "T", str "u"⟩])
      = processCitedContent (str "hi") (some []) (some [⟨str "T", str "u"⟩])
    ∧ processCitedContent (str "hi") (some [⟨none, none, str "u", none⟩])
        (some [⟨str "T", str "u"⟩]) = str "hi" :=
  ⟨processCitedContent_filtering_and_noop.2 (str "hi") [⟨str "T", str "u"⟩]
      ⟨none, none, str "u", none⟩ [] [] (Or.inl rfl),
   processCitedContent_filtering_and_noop.1 (str "hi")
      (some [⟨none, none, str "u", none⟩]) (some [⟨str "T", str "u"⟩]) (by decide)⟩

/-- The insertion-point rule as amended for claim C4: `endIndex` is used
when it is present AND nonzero (JS `endIndex || startIndex` treats `0` as
absent), else `startIndex`. -/
def claimInsertionPoint (endIndex : Option Int) (si : Int) : Int :=
  match endIndex with
  | some e => if e = 0 then si else e
  | none => si

lemma insertionPoint_eq_claim (c : PCitation) :
    insertionPoint c = claimInsertionPoint c.endIndex c.startIndex := by
  cases hE : c.endIndex <;> simp [insertionPoint, claimInsertionPoint, hE]

/-- Claim C4 (amended): for a single surviving citation, the marker is
inserted at `endIndex` when that field is present and nonzero, and at
`startIndex` otherwise — in particular `endIndex = 0` falls back to
`startIndex`, because `endIndex || startIndex` treats `0` as falsy. -/
theorem processCitedContent_single_insertion (content : Str) (c : Citation)
    (src : Source) (si : Int) (h1 : c.startIndex = some si)
    (h2 : c.uri = src.uri) (h3 : 0 ≤ claimInsertionPoint c.endIndex si) :
    processCitedContent content (some [c]) (some [src])
      = jsSubstring content 0 (claimInsertionPoint c.endIndex si)
          ++ markerStr 0
          ++ jsSubstringFrom content (claimInsertionPoint c.endIndex si) := by
  have hlook : uriToSourceData [src] c.uri = some (0, src.title) := by
    simp [uriToSourceData, lookupLast, h2]
  have hpc : toPCitation [src] c
      = some ⟨si, c.endIndex, c.uri, c.license, 0, src.title⟩ := by
    simp [toPCitation, h1, hlook]
  have hproc : processedCitations [c] [src]
      = [⟨si, c.endIndex, c.uri, c.license, 0, src.title⟩] := by
    simp [processedCitations, List.filterMap_cons, hpc, List.insertionSort]
  have hip : insertionPoint ⟨si, c.endIndex, c.uri, c.license, 0, src.title⟩
      = claimInsertionPoint c.endIndex si := by
    cases hE : c.endIndex <;> simp [insertionPoint, claimInsertionPoint, hE]
  simp only [processCitedContent, List.isEmpty_cons, Bool.false_or,
    Bool.false_eq_true, if_false, hproc]
  simp only [citeLoop, hip]
  rw [if_neg (by omega)]
  simp [List.append_assoc]

/-- Witness for C4 (amended) at `endIndex = 0`: the marker lands at
`startIndex = 5`, the point the amended rule prescribes. -/
theorem processCitedContent_single_insertion_witness :
    processCitedContent (str "abcdefgh")
        (some [⟨some 5, some 0, str "u", none⟩]) (some [⟨str "T", str "u"⟩])
      = jsSubstring (str "abcdefgh") 0 (claimInsertionPoint (some 0) 5)
          ++ markerStr 0
          ++ jsSubstringFrom (str "abcdefgh") (claimInsertionPoint (some 0) 5) :=
  processCitedContent_single_insertion (str "abcdefgh")
    ⟨some 5, some 0, str "u", none⟩ ⟨str "T", str "u"⟩ 5 rfl rfl (by decide)

/-- Counterexample to C4 as stated: a citation with `startIndex = 5` and
`endIndex = 0` gets its marker at position 5, not at its `endIndex` 0 as
the claim requires for a present `endIndex` field. -/
theorem endIndex_zero_counterexample :
    processCitedContent (str "abcdefgh")
        (some [⟨some 5, some 0, str "u", none⟩]) (some [⟨str "T", str "u"⟩])
      = str "abcde[1](#citation-0)fgh"
    ∧ processCitedContent (str "abcdefgh")
        (some [⟨some 5, some 0, str "u", none⟩]) (some [⟨str "T", str "u"⟩])
      ≠ str "[1](#citation-0)abcdefgh" := by
  exact ⟨by decide, by decide⟩

lemma find?_append_of_none {α : Type} {q : α → Bool} :
    ∀ (m l2 : List α), m.find? q = none → (m ++ l2).find? q = l2.find? q := by
  intro m l2
  induction m with
  | nil => intro _; rfl
  | cons p rest ih =>
    intro h
    cases hp : q p with
    | true => rw [List.find?_cons_of_pos _ hp] at h; exact absurd h (by simp)
    | false =>
      rw [List.find?_cons_of_neg _ (by simp [hp])] at h
      rw [List.cons_append, List.find?_cons_of_neg _ (by simp [hp])]
      exact ih h

lemma find?_map_replace (k : Str) (v : Source) :
    ∀ m : List (Str × Source),
      ((m.map (fun p => if p.1 == k then (k, v) else p)).find? (fun p => p.1 == k))
        = if m.any (·.1 == k) then some (k, v) else none := by
  intro m
  induction m with
  | nil => simp
  | cons p rest ih =>
    rw [List.map_cons]
    cases hp : p.1 == k with
    | true =>
      rw [if_pos rfl,
        List.find?_cons_of_pos (p := fun q => q.1 == k) (a := (k, v)) _ (by simp)]
      simp only [List.any_cons, hp, Bool.true_or, if_true]
    | false =>
      rw [if_neg (by simp),
        List.find?_cons_of_neg (p := fun q => q.1 == k) (a := p) _ (by simp [hp]), ih]
      simp only [List.any_cons, hp, Bool.false_or]

lemma find?_map_replace_other (k' : Str) (v : Source) (k : Str)
    (h : (k' == k) = false) :
    ∀ m : List (Str × Source),
      ((m.map (fun p => if p.1 == k' then (k', v) else p)).find? (fun p => p.1 == k))
        = m.find? (fun p => p.1 == k) := by
  intro m
  induction m with
  | nil => rfl
  | cons p rest ih =>
    rw [List.map_cons]
    cases hp : p.1 == k' with
    | true =>
      have hpk : (p.1 == k) = false := by rw [eq_of_beq hp]; exact h
      rw [if_pos rfl,
        List.find?_cons_of_neg (p := fun q => q.1 == k) (a := (k', v)) _ (by simp [h]),
        List.find?_cons_of_neg (p := fun q => q.1 == k) (a := p) _ (by simp [hpk])]
      exact ih
    | false =>
      rw [if_neg (by simp)]
      cases hk : p.1 == k with
      | true =>
        rw [List.find?_cons_of_pos (p := fun q => q.1 == k) (a := p) _ hk,
          List.find?_cons_of_pos (p := fun q => q.1 == k) (a := p) _ hk]
      | false =>
        rw [List.find?_cons_of_neg (p := fun q => q.1 == k) (a := p) _ (by simp [hk]),
          List.find?_cons_of_neg (p := fun q => q.1 == k) (a := p) _ (by simp [hk])]
        exact ih

lemma find?_append_single (k' : Str) (v : Source) (k : Str)
    (h : (k' == k) = false) :
    ∀ m : List (Str × Source),
      ((m ++ [(k', v)]).find? (fun p => p.1 == k)) = m.find? (fun p => p.1 == k) := by
  intro m
  induction m with
  | nil => simp [List.find?_cons, h]
  | cons p rest ih =>
    cases hp : p.1 == k with
    | true => simp [List.find?_cons, hp]
    | false => simp [List.find?_cons, hp, ih]

lemma mapLookup_jsMapSet_same (m : List (Str × Source)) (k : Str) (v : Source) :
    mapLookup (jsMapSet m k v) k = some v := by
  unfold jsMapSet mapLookup
  cases ha : m.any (·.1 == k) with
  | true =>
    rw [if_pos rfl, find?_map_replace k v m, if_pos ha]
    rfl
  | false =>
    have hnone : m.find? (fun p => p.1 == k) = none := by
      rw [List.find?_eq_none]
      intro x hx
      exact (List.any_eq_false.mp ha) x hx
    rw [if_neg (by simp), find?_append_of_none m [(k, v)] hnone]
    simp [List.find?_cons]

lemma mapLookup_jsMapSet_other (m : List (Str × Source)) (k' : Str)
    (v : Source) (k : Str) (h : (k' == k) = false) :
    mapLookup (jsMapSet m k' v) k = mapLookup m k := by
  unfold jsMapSet mapLookup
  cases ha : m.any (·.1 == k') with
  | true => rw [if_pos rfl, find?_map_replace_other k' v k h m]
  | false => rw [if_neg (by simp), find?_append_single k' v k h m]

lemma mergeSources_no_match :
    ∀ (ss : List Source) (m : List (Str × Source)) (k : Str),
      (∀ x ∈ ss, (x.uri == k) = false) →
      mapLookup (mergeSources m ss) k = mapLookup m k := by
  intro ss
  induction ss with
  | nil => intro m k _; rfl
  | cons s rest ih =>
    intro m k h
    have hs : (s.uri == k) = false := h s (List.mem_cons_self _ _)
    have hrest : ∀ x ∈ rest, (x.uri == k) = false :=
      fun x hx => h x (List.mem_cons_of_mem _ hx)
    show mapLookup (mergeSources (jsMapSet m s.uri s) rest) k = mapLookup m k
    rw [ih (jsMapSet m s.uri s) k hrest, mapLookup_jsMapSet_other m s.uri s k hs]

/-- Claim C6 (amended): the stream merge deduplicates sources by `uri`, but
for several arriving entries with the same `uri` the stored source (hence
the title) is that of the LAST-seen entry — `Map.set` overwrites the stored
value — not the first-seen one. -/
theorem mergeSources_dedup_last_seen_wins :
    ∀ (ss : List Source) (k : Str) (sLast : Source)
      (m : List (Str × Source)),
      (ss.filter (fun s => s.uri == k)).getLast? = some sLast →
      mapLookup (mergeSources m ss) k = some sLast := by
  intro ss
  induction ss with
  | nil => intro k sLast m hf; simp at hf
  | cons s rest ih =>
    intro k sLast m hf
    show mapLookup (mergeSources (jsMapSet m s.uri s) rest) k = some sLast
    cases hfr : rest.filter (fun x => x.uri == k) with
    | nil =>
      have hall : ∀ x ∈ rest, ¬((x.uri == k) = true) :=
        List.filter_eq_nil_iff.mp hfr
      have hall' : ∀ x ∈ rest, (x.uri == k) = false := by
        intro x hx
        cases hb : x.uri == k with
        | true => exact absurd hb (hall x hx)
        | false => rfl
      cases hc : s.uri == k with
      | false =>
        rw [List.filter_cons_of_neg (p := fun x => x.uri == k) (a := s) (by simp [hc]), hfr] at hf
        simp at hf
      | true =>
        rw [List.filter_cons_of_pos (p := fun x => x.uri == k) (a := s) hc, hfr] at hf
        simp at hf
        subst hf
        rw [mergeSources_no_match rest (jsMapSet m s.uri s) k hall',
          ← eq_of_beq hc, mapLookup_jsMapSet_same]
    | cons y ys =>
      have hfr2 : (rest.filter (fun x => x.uri == k)).getLast? = some sLast := by
        cases hc : s.uri == k with
        | true =>
          rw [List.filter_cons_of_pos (p := fun x => x.uri == k) (a := s) hc, hfr] at hf
          rw [hfr]
          rwa [List.getLast?_cons_cons] at hf
        | false =>
          rwa [List.filter_cons_of_neg (p := fun x => x.uri == k) (a := s) (by simp [hc])] at hf
      exact ih k sLast (jsMapSet m s.uri s) hfr2

/-- Witness for C6 (amended): merging two sources with the same `uri` and
titles `A` then `B` stores the source titled `B`. -/
theorem mergeSources_dedup_last_seen_wins_witness :
    mapLookup (mergeSources []
        [⟨str "A", str "u"⟩, ⟨str "B", str "u"⟩]) (str "u")
      = some ⟨str "B", str "u"⟩ :=
  mergeSources_dedup_last_seen_wins
    [⟨str "A", str "u"⟩, ⟨str "B", str "u"⟩] (str "u")
    ⟨str "B", str "u"⟩ [] (by decide)

/-- Counterexample to C6 as stated: merging `[{title: A, uri: u},
{title: B, uri: u}]` yields the single source titled `B` (the last-seen
title), not `A` (the first-seen title) as the claim requires. -/
theorem mergeSources_first_seen_counterexample :
    sourceValues (mergeSources []
        [⟨str "A", str "u"⟩, ⟨str "B", str "u"⟩])
      = [⟨str "B", str "u"⟩]
    ∧ sourceValues (mergeSources []
        [⟨str "A", str "u"⟩, ⟨str "B", str "u"⟩])
      ≠ [⟨str "A", str "u"⟩] :=
  ⟨by decide, by decide⟩

/-- The separator predicate exactly as claim C3 words it: after trimming the
line and stripping one optional leading and one optional trailing pipe,
splitting on `|` yields at least one segment and every segment (ignoring
surrounding whitespace) is an optional colon, one or more dashes, and an
optional colon.  Note the absence of any requirement that the line contain
a pipe character. -/
def claimSeparator (line : Str) : Bool :=
  let segments := jsSplitChar '|' (stripPipes (jsTrim line))
  decide (0 < segments.length) && segments.all segTest

/-- Claim C3 (amended): a line is a valid separator iff its trimmed form
contains at least one dash AND at least one pipe character and the claim's
segment condition holds; in particular a pipe-less line such as `---` is
NOT a separator, contrary to the claim. -/
theorem isSeparatorLine_iff_claim (line : Str) :
    isSeparatorLine line
      = (jsContains (jsTrim line) '-' && jsContains (jsTrim line) '|'
          && claimSeparator line) := by
  unfold isSeparatorLine claimSeparator
  cases h1 : jsContains (jsTrim line) '-' <;>
    cases h2 : jsContains (jsTrim line) '|' <;> simp [h1, h2]

/-- Counterexample to C3 as stated: the line `---` satisfies the claim's
separator predicate (one segment, all dashes) but `isSeparatorLine`
rejects it because the line contains no pipe character. -/
theorem separator_no_pipe_counterexample :
    claimSeparator (str "---") = true ∧ isSeparatorLine (str "---") = false :=
  ⟨by decide, by decide⟩

/-- The literal input of claim C5: intro paragraph, blank line, two-column
grid table with two data rows, blank line, outro paragraph. -/
def gridExampleInput : Str :=
  str "Intro text.\n\n| Name | Score |\n| --- | --- |\n| Alice | 90 |\n| Bob | 85 |\n\nOutro text."

/-- Claim C5 (amended): on the claim's input the extractor returns the
claimed table, but `remainingText` is `"Intro text.\n\n\nOutro text."` with
THREE consecutive newlines: the blank line above and the blank line below
the table both survive, and rejoining the remaining lines leaves two empty
lines between the paragraphs. -/
theorem extract_grid_example :
    extractAndParseMarkdownTable gridExampleInput
      = ⟨str "Intro text.\n\n\nOutro text.",
         some (tableToJsonTable ⟨[str "Name", str "Score"],
           [[str "Alice", str "90"], [str "Bob", str "85"]]⟩)⟩ := rfl

/-- Counterexample to C5 as stated: on the claim's input the extractor's
`remainingText` is not the claimed `"Intro text.\n\nOutro text."` (it keeps
both blank lines, producing three consecutive newlines). -/
theorem extract_grid_example_counterexample :
    (extractAndParseMarkdownTable gridExampleInput).remainingText
        = str "Intro text.\n\n\nOutro text."
    ∧ (extractAndParseMarkdownTable gridExampleInput).remainingText
        ≠ str "Intro text.\n\nOutro text." :=
  ⟨by decide, by decide⟩

lemma mem_collectRows_length (n : Nat) :
    ∀ (l : List Str) (r : List Str), r ∈ collectRows n l → r.length = n := by
  intro l
  induction l with
  | nil => intro r hr; simp [collectRows] at hr
  | cons line rest ih =>
    intro r hr
    simp only [collectRows] at hr
    split at hr
    · split at hr
      · rcases List.mem_cons.mp hr with h | h
        · rename_i hlen
          rw [h]; exact hlen
        · exact ih r h
      · simp at hr
    · simp at hr

lemma scanTable_rows_shape :
    ∀ (lines : List Str) (i j : Nat) (hs : List Str) (rows : List (List Str)),
      scanTable i lines = some (j, hs, rows) →
      ∃ rest, rows = collectRows hs.length rest := by
  intro lines
  induction lines with
  | nil => intro i j hs rows h; simp [scanTable] at h
  | cons a tail ih =>
    intro i j hs rows h
    cases tail with
    | nil => simp [scanTable] at h
    | cons sep rest =>
      simp only [scanTable] at h
      split at h
      · split at h
        · simp only [Option.some.injEq, Prod.mk.injEq] at h
          obtain ⟨-, hhs, hrows⟩ := h
          exact ⟨rest, by rw [← hrows, ← hhs]⟩
        · exact ih (i + 1) j hs rows h
      · exact ih (i + 1) j hs rows h

/-- Claim C1 (amended): for every table produced by the plain grid scanner
`_internalParseMarkdownForTable`, every row has exactly `headers.length`
cells.  (For tables taken from a fenced JSON block only the array shape of
`headers` and `rows` is validated, so there the invariant can fail — see
the counterexample.) -/
theorem grid_rows_match_headers (markdown : Str) (t : ComparisonTableData)
    (h : (_internalParseMarkdownForTable markdown).table = some t) :
    t.rows.all (fun r => r.length == t.headers.length) = true := by
  simp only [_internalParseMarkdownForTable] at h
  cases hscan : scanTable 0 (jsSplitChar '\n' markdown) with
  | none => rw [hscan] at h; simp at h
  | some trip =>
    obtain ⟨i, hs, rows⟩ := trip
    rw [hscan] at h
    cases hre : rows.isEmpty with
    | true => simp [hre] at h
    | false =>
      simp only [hre, Bool.false_eq_true, if_false, Option.some.injEq] at h
      obtain ⟨rest, hrows⟩ := scanTable_rows_shape _ 0 i hs rows hscan
      rw [← h]
      rw [List.all_eq_true]
      intro r hr
      have : r.length = hs.length := by
        apply mem_collectRows_length hs.length rest
        rw [← hrows]; exact hr
      simp [this]

/-- Witness for C1 (amended) on a concrete three-line grid: the single
collected row has the header count 2. -/
theorem grid_rows_match_headers_witness :
    (([[str "1", str "2"]] : List (List Str)).all
        (fun r => r.length == ([str "a", str "b"] : List Str).length)) = true :=
  grid_rows_match_headers (str "a | b\n| - | - |\n| 1 | 2 |")
    ⟨[str "a", str "b"], [[str "1", str "2"]]⟩ (by decide)

/-- The row-length invariant as claim C1 states it, for a table in the JSON
universe: every row is an array with exactly `headers.length` cells. -/
def rowsMatchHeaders (t : JsTable) : Bool :=
  t.rows.all (fun r => match r with
    | Json.arr cells => cells.length == t.headers.length
    | _ => false)

/-- The fenced-block input for the C1 counterexample: a JSON table whose
single row has one cell while `headers` has two entries. -/
def fencedShortRowInput : Str :=
  str "```json\n\x7b\"table\":\x7b\"headers\":[\"a\",\"b\"],\"rows\":[[\"x\"]]\x7d\x7d\n```"

/-- Counterexample to C1 as stated: a table extracted from a fenced JSON
block can violate the row-length invariant — the extractor returns this
table (so `table ≠ null`) yet its row of length 1 does not match the two
headers. -/
theorem fenced_rows_counterexample :
    ((extractAndParseMarkdownTable fencedShortRowInput).table.map rowsMatchHeaders)
      = some false := by decide

lemma mem_of_mem_jsTrim {c : Char} {l : Str} (h : c ∈ jsTrim l) : c ∈ l := by
  unfold jsTrim at h
  rw [List.mem_reverse] at h
  have h1 : c ∈ (l.dropWhile isWs).reverse := (List.dropWhile_sublist isWs).subset h
  rw [List.mem_reverse] at h1
  exact (List.dropWhile_sublist isWs).subset h1

lemma mem_of_mem_jsSplitChar {sep : Char} :
    ∀ {l piece : Str} {c : Char},
      piece ∈ jsSplitChar sep l → c ∈ piece → c ∈ l := by
  intro l
  induction l with
  | nil =>
    intro piece c hp hc
    simp only [jsSplitChar, List.mem_singleton] at hp
    subst hp
    simp at hc
  | cons d t ih =>
    intro piece c hp hc
    simp only [jsSplitChar] at hp
    split at hp
    · rcases List.mem_cons.mp hp with h | h
      · subst h; simp at hc
      · exact List.mem_cons_of_mem _ (ih h hc)
    · cases hr : jsSplitChar sep t with
      | nil =>
        rw [hr] at hp
        simp only [List.mem_singleton] at hp
        subst hp
        rcases List.mem_cons.mp hc with h' | h'
        · subst h'; exact List.mem_cons_self _ _
        · simp at h'
      | cons h2 t2 =>
        rw [hr] at hp
        rcases List.mem_cons.mp hp with h | h
        · subst h
          rcases List.mem_cons.mp hc with h' | h'
          · subst h'; exact List.mem_cons_self _ _
          · exact List.mem_cons_of_mem _
              (ih (by rw [hr]; exact List.mem_cons_self _ _) h')
        · exact List.mem_cons_of_mem _
            (ih (by rw [hr]; exact List.mem_cons_of_mem _ h) hc)

lemma jsContains_false_iff (l : Str) (c : Char) :
    jsContains l c = false ↔ c ∉ l := by
  unfold jsContains
  rw [List.any_eq_false]
  constructor
  · intro h hc
    exact absurd (show (c == c) = true by simp) (h c hc)
  · intro h x hx hb
    exact h (by rwa [eq_of_beq hb] at hx)

lemma scanTable_eq_none :
    ∀ (lines : List Str),
      (∀ line ∈ lines, jsContains (jsTrim line) '|' = false) →
      ∀ i, scanTable i lines = none := by
  intro lines
  induction lines with
  | nil => intro _ i; rfl
  | cons a tail ih =>
    intro h i
    cases tail with
    | nil => rfl
    | cons sep rest =>
      have hcp : jsContains (jsTrim sep) '|' = false :=
        h sep (List.mem_cons_of_mem _ (List.mem_cons_self _ _))
      have hsep : isSeparatorLine sep = false := by
        unfold isSeparatorLine
        simp [hcp]
      simp only [scanTable, hsep, Bool.false_eq_true, if_false]
      exact ih (fun line hl => h line (List.mem_cons_of_mem _ hl)) (i + 1)

lemma internal_table_none_remaining (s : Str)
    (h : (_internalParseMarkdownForTable s).table = none) :
    (_internalParseMarkdownForTable s).remainingText = s := by
  simp only [_internalParseMarkdownForTable] at h ⊢
  cases hscan : scanTable 0 (jsSplitChar '\n' s) with
  | none => rfl
  | some trip =>
    obtain ⟨i, hs, rows⟩ := trip
    rw [hscan] at h
    cases hre : rows.isEmpty with
    | true => simp [hre]
    | false => simp [hre] at h

lemma internal_no_pipe (s : Str) (h : jsContains s '|' = false) :
    (_internalParseMarkdownForTable s).table = none := by
  have hlines : ∀ line ∈ jsSplitChar '\n' s,
      jsContains (jsTrim line) '|' = false := by
    intro line hl
    rw [jsContains_false_iff]
    intro hc
    exact (jsContains_false_iff s '|').mp h
      (mem_of_mem_jsSplitChar hl (mem_of_mem_jsTrim hc))
  simp only [_internalParseMarkdownForTable]
  rw [scanTable_eq_none _ hlines 0]

lemma matchFence_eq_none {l : Str} (h : '`' ∉ l) : matchFence l = none := by
  unfold matchFence
  rw [if_neg]
  intro ht
  apply h
  have h3 : '`' ∈ l.take 3 := by rw [ht]; simp
  exact (List.take_sublist 3 l).subset h3

lemma findBlock_eq_none : ∀ (l : Str), '`' ∉ l → findBlock l = none := by
  intro l
  induction l with
  | nil => intro _; rfl
  | cons c t ih =>
    intro h
    have h1 : matchFence (c :: t) = none := matchFence_eq_none h
    have h2 : findBlock t = none := ih (fun hc => h (List.mem_cons_of_mem _ hc))
    simp [findBlock, h1, h2]

lemma lift_fallback_remaining (s : Str)
    (h : (liftInternal (_internalParseMarkdownForTable s)).table = none) :
    (liftInternal (_internalParseMarkdownForTable s)).remainingText = s := by
  simp only [liftInternal] at h ⊢
  exact internal_table_none_remaining s (Option.map_eq_none'.mp h)

/-- Claim C9: whenever `extractAndParseMarkdownTable` returns `table = null`
— in particular on any input from which no phase can extract a table — the
returned `remainingText` is the original input unchanged; and on plain prose
with no pipe and no backtick character no table is ever found.  (The Lean
model is a total function, reflecting that the source never throws: every
malformed input flows into the documented fallbacks.) -/
theorem extract_failure_semantics (s : Str) :
    ((extractAndParseMarkdownTable s).table = none →
      (extractAndParseMarkdownTable s).remainingText = s)
    ∧ (jsContains s '|' = false → jsContains s '`' = false →
      (extractAndParseMarkdownTable s).table = none) := by
  constructor
  · intro h
    cases hise : s.isEmpty with
    | true =>
      have hs : s = [] := by
        cases s with
        | nil => rfl
        | cons x xs => simp at hise
      subst hs; rfl
    | false =>
      simp only [extractAndParseMarkdownTable, hise, Bool.false_eq_true,
        if_false] at h ⊢
      cases hfb : findBlock (jsTrim s) with
      | none =>
        simp only [hfb] at h ⊢
        exact lift_fallback_remaining s h
      | some q =>
        obtain ⟨b, whole, cap, aft⟩ := q
        simp only [hfb] at h ⊢
        cases hcap : cap.isEmpty with
        | true =>
          simp only [hcap, if_true] at h ⊢
          exact lift_fallback_remaining s h
        | false =>
          simp only [hcap, Bool.false_eq_true, if_false] at h ⊢
          cases hjp : jsonParse cap with
          | none =>
            simp only [hjp] at h ⊢
            cases hout : (_internalParseMarkdownForTable
                (jsTrim (jsReplaceFirst whole [] (jsTrim s)))).table with
            | some t0 =>
              simp only [hout, liftInternal, Option.map] at h
              exact absurd h (by simp)
            | none =>
              simp only [hout] at h ⊢
              exact lift_fallback_remaining s h
          | some parsed =>
            simp only [hjp] at h ⊢
            cases hft : fencedTableOf parsed with
            | some table =>
              simp only [hft] at h
              exact absurd h (by simp)
            | none =>
              simp only [hft] at h ⊢
              exact lift_fallback_remaining s h
  · intro hp hb
    cases hise : s.isEmpty with
    | true => simp [extractAndParseMarkdownTable, hise]
    | false =>
      simp only [extractAndParseMarkdownTable, hise, Bool.false_eq_true, if_false]
      have hbt : '`' ∉ jsTrim s :=
        fun hc => (jsContains_false_iff s '`').mp hb (mem_of_mem_jsTrim hc)
      rw [findBlock_eq_none _ hbt]
      simp [liftInternal, internal_no_pipe s hp]

/-- Witness for C9 on plain prose: the extractor finds no table and returns
the input unchanged. -/
theorem extract_failure_semantics_witness :
    (extractAndParseMarkdownTable (str "plain prose")).remainingText
        = str "plain prose"
    ∧ (extractAndParseMarkdownTable (str "plain prose")).table = none :=
  ⟨(extract_failure_semantics (str "plain prose")).1 (by rfl),
   (extract_failure_semantics (str "plain prose")).2 (by decide) (by decide)⟩

/-- Claim C2 (amended): when the fenced block's payload parses as JSON but
its `table` value fails the structural validation, the extractor falls
through to the grid scan of the ENTIRE ORIGINAL `responseText` — not of
only the text outside the fenced block — so text inside the block takes
part in that scan. -/
theorem extract_invalid_fenced_scans_full_text
    (s b whole cap aft : Str) (j : Json)
    (hne : s.isEmpty = false)
    (hfb : findBlock (jsTrim s) = some (b, whole, cap, aft))
    (hcap : cap.isEmpty = false)
    (hjp : jsonParse cap = some j)
    (hft : fencedTableOf j = none) :
    extractAndParseMarkdownTable s
      = liftInternal (_internalParseMarkdownForTable s) := by
  simp only [extractAndParseMarkdownTable, hne, Bool.false_eq_true, if_false,
    hfb, hcap, hjp, hft]

/-- Witness for C2 (amended): a block whose JSON parses but whose `table`
is the (invalid) number `0` sends the extractor to the full-text grid
scan. -/
theorem extract_invalid_fenced_scans_full_text_witness :
    extractAndParseMarkdownTable (str "x\n```json\n\x7b\"table\":0\x7d\n```")
      = liftInternal (_internalParseMarkdownForTable
          (str "x\n```json\n\x7b\"table\":0\x7d\n```")) :=
  extract_invalid_fenced_scans_full_text
    (str "x\n```json\n\x7b\"table\":0\x7d\n```")
    (str "x\n") (str "```json\n\x7b\"table\":0\x7d\n```")
    (str "\x7b\"table\":0\x7d") (str "")
    (Json.obj [(str "table", Json.num 0)])
    (by decide) (by decide) (by decide) (by rfl) (by rfl)

/-- The C2 counterexample input: a grid header line and the prefix of its
separator line sit before the fenced block, the rest of the separator and
the data row sit after it; the block's payload is valid JSON whose `table`
value is structurally invalid. -/
def invalidFencedGridInput : Str :=
  str "a | b\n| - | -```json\n\x7b\"table\":\x7b\"headers\":0,\"rows\":[]\x7d\x7d\n``` |\n| 1 | 2 |"

/-- Counterexample to C2 as stated: on `invalidFencedGridInput` the code
extracts NO table (the full original text, fence lines included, has no
adjacent header/separator pair), although the grid scan on only the text
outside the fenced block — the concatenation of the text before and after
the block, which the second conjunct pins down via `findBlock` — does find
a table.  So the fallback does not run on only the outside text. -/
theorem extract_invalid_fenced_counterexample :
    (extractAndParseMarkdownTable invalidFencedGridInput).table = none
    ∧ findBlock (jsTrim invalidFencedGridInput)
        = some (str "a | b\n| - | -",
            str "```json\n\x7b\"table\":\x7b\"headers\":0,\"rows\":[]\x7d\x7d\n```",
            str "\x7b\"table\":\x7b\"headers\":0,\"rows\":[]\x7d\x7d",
            str " |\n| 1 | 2 |")
    ∧ (_internalParseMarkdownForTable
          (jsTrim (str "a | b\n| - | -" ++ str " |\n| 1 | 2 |"))).table
        = some ⟨[str "a", str "b"], [[str "1", str "2"]]⟩ :=
  ⟨rfl, by decide, by decide⟩
